import Mathlib

/-!
Verification development for the InnoFranceApp job scheduler and
speaker-clip candidate-selection algorithm.

The definitions below are a shallow embedding of the Python sources:
  - `src/inno_france_app/api/queue.py` (`PipelineJob`, `PipelineQueue`)
  - `src/inno_france_app/db.py` (`AppDatabase.save_job/save_steps/load_jobs`)
  - `src/inno_france_app/pipeline.py` (speaker-clip candidate selection)

Modelling conventions:
  - timestamps (`datetime.utcnow()`, isoformat strings) are abstracted to
    `Nat` ticks; no verified property depends on the textual format;
  - floats are modelled by `ℚ`; all concrete inputs used in proofs are
    small dyadic rationals on which IEEE double arithmetic is exact;
  - JSON-serialized payloads (`result_json`, `tags_json`) are stored
    structurally: `json.dumps` never produces a falsy string on a
    non-`None` value and `json.loads` inverts it, so a database column
    holding `json.dumps v` (or SQL `NULL`) is modelled as `Option` of the
    structural value;
  - Python dicts used as registries keyed by unique ids are modelled as
    lists; asyncio futures (`_speaker_future`) as
    `Option (Option String)` (`none` = no future, `some none` = pending,
    `some (some s)` = fulfilled with `s`).
-/

/-- A JSON object payload (`Job.result` artifact map), abstracted to an
association list of string keys and string-rendered values. -/
abbrev ResObj := List (String × String)

/-- `StepEvent` from `api/schemas.py` (timestamp abstracted to a tick). -/
structure StepEventE where
  step : String
  status : String
  message : String
  detail : Option String
  timestamp : Nat
deriving DecidableEq

/-- `PipelineJob` from `api/queue.py` (scheduler-relevant fields; the
`_progress_queue` fan-out channel is omitted, `_speaker_future` is kept as
`speaker_future`). -/
structure PipelineJobE where
  job_id : String
  user_id : Int
  status : String
  created_at : Nat
  started_at : Option Nat := none
  finished_at : Option Nat := none
  error : Option String := none
  steps : List StepEventE := []
  result : Option ResObj := none
  speaker_required : Bool := false
  speaker_submitted : Bool := false
  speaker_future : Option (Option String) := none
  note : Option String := none
  custom_name : Option String := none
  tags : List String := []
  published : Bool := false
deriving DecidableEq

/-- `UserSettings` from `api/queue.py`. -/
structure UserSettingsE where
  parallel_enabled : Bool
  max_concurrent : Int
  tags : List String := []
  api_keys : List (String × String) := []
  asset_selections : List (String × String) := []
deriving DecidableEq

/-- The mutable state owned by `PipelineQueue` (`api/queue.py`):
`_jobs`, `_running_by_user`, `_queue_order_by_user`, `_settings_by_user`,
plus the constructor defaults `_parallel_enabled` / `_max_concurrent`
(already clamped to `[1,5]` by `__init__`) and a logical clock standing in
for `datetime.utcnow()`. -/
structure QState where
  jobs : List PipelineJobE
  running : Int → List String
  order : Int → List String
  settings : Int → Option UserSettingsE
  defaultParallel : Bool
  defaultMax : Int
  clock : Nat

/-- `PipelineQueue.MAX_QUEUED`. -/
def MAX_QUEUED : Nat := 10

/-- `PipelineQueue._settings_for_user`: lazily created per-user settings,
defaulting to the constructor-level flags. -/
def settingsFor (s : QState) (uid : Int) : UserSettingsE :=
  match s.settings uid with
  | some st => st
  | none => { parallel_enabled := s.defaultParallel, max_concurrent := s.defaultMax }

/-- `PipelineQueue._slots_available`. -/
def slotsAvailable (s : QState) (uid : Int) : Int :=
  let st := settingsFor s uid
  let running := s.running uid
  if st.parallel_enabled then st.max_concurrent - running.length
  else if running.isEmpty then 1 else 1 - running.length

/-- `PipelineQueue._can_start`. -/
def canStart (s : QState) (job : PipelineJobE) : Bool :=
  let slots := slotsAvailable s job.user_id
  if slots ≤ 0 then false
  else
    let queue := s.order job.user_id
    if ¬ queue.contains job.job_id then true
    else
      let n := if (settingsFor s job.user_id).parallel_enabled then slots.toNat else 1
      (queue.take n).contains job.job_id

/-- The admission-control count in `PipelineQueue.enqueue`: the user's jobs
whose status is `queued` or `running`. -/
def countQueuedRunning (s : QState) (uid : Int) : Nat :=
  (s.jobs.filter
    (fun j => (j.status == "queued" || j.status == "running") && j.user_id == uid)).length

/-- Insertion into the `_jobs` dict (`self._jobs[job_id] = job`): replaces
in place when the key exists, appends otherwise. -/
def insertJob (jobs : List PipelineJobE) (job : PipelineJobE) : List PipelineJobE :=
  if jobs.any (fun j => j.job_id == job.job_id) then
    jobs.map (fun j => if j.job_id == job.job_id then job else j)
  else jobs ++ [job]

theorem mem_insertJob (jobs : List PipelineJobE) (job : PipelineJobE) :
    job ∈ insertJob jobs job := by
  unfold insertJob
  by_cases h : jobs.any (fun j => j.job_id == job.job_id)
  · rw [if_pos h]
    rw [List.any_eq_true] at h
    obtain ⟨j, hj, hq⟩ := h
    exact List.mem_map.mpr ⟨j, hj, by simp [hq]⟩
  · rw [if_neg h]
    exact List.mem_append_right _ (List.mem_singleton.mpr rfl)

/-- The `PipelineJob` constructed inside `PipelineQueue.enqueue`. -/
def newJob (s : QState) (uid : Int) (jid : String) (manualSpeakers : Bool) : PipelineJobE :=
  { job_id := jid
    user_id := uid
    status := "queued"
    created_at := s.clock
    speaker_required := manualSpeakers
    speaker_future := if manualSpeakers then some none else none }

/-- `PipelineQueue.enqueue` (`api/queue.py` lines 281-369): the admission
check and the state mutations performed under the lock. The fresh
`uuid.uuid4()` is passed in as `jid`; a raise leaves the state untouched,
so the error branch returns the input state unchanged. -/
def enqueue (s : QState) (uid : Int) (jid : String) (manualSpeakers : Bool) :
    QState × Except String PipelineJobE :=
  if countQueuedRunning s uid ≥ MAX_QUEUED then
    (s, .error "Queue full: at most 10 pipelines allowed (queued + running)")
  else
    let job := newJob s uid jid manualSpeakers
    ({ s with
        jobs := insertJob s.jobs job
        order := fun u => if u = uid then s.order u ++ [jid] else s.order u
        clock := s.clock + 1 },
     .ok job)

/-- An empty scheduler state (fresh `PipelineQueue` over an empty store,
constructor defaults `parallel_enabled=False`, `max_concurrent=1`). -/
def emptyQState : QState :=
  ⟨[], fun _ => [], fun _ => [], fun _ => none, false, 1, 0⟩

/-- A queued job for user 1 with a numbered id (witness construction). -/
def mkQueuedJob (i : Nat) : PipelineJobE :=
  { job_id := toString i, user_id := 1, status := "queued", created_at := 0 }

/-- A state whose user 1 already holds ten queued jobs (witness construction). -/
def fullQState : QState :=
  ⟨(List.range 10).map mkQueuedJob, fun _ => [],
    fun _ => (List.range 10).map toString, fun _ => none, false, 1, 10⟩

/-- C2. Submitting a job for a user with at least `MAX_QUEUED` (= 10) jobs
in `queued|running` raises the queue-full error; below the limit the
submission succeeds with a fresh `queued` job appended to the end of the
user's queue order. -/
theorem claim_C2_queue_admission (s : QState) (uid : Int) (jid : String) (ms : Bool) :
    MAX_QUEUED = 10 ∧
    (countQueuedRunning s uid ≥ MAX_QUEUED →
      (enqueue s uid jid ms).2 =
        .error "Queue full: at most 10 pipelines allowed (queued + running)") ∧
    (countQueuedRunning s uid < MAX_QUEUED →
      ∃ job, (enqueue s uid jid ms).2 = .ok job ∧
        job.job_id = jid ∧ job.user_id = uid ∧ job.status = "queued" ∧
        job ∈ (enqueue s uid jid ms).1.jobs ∧
        (enqueue s uid jid ms).1.order uid = s.order uid ++ [jid]) := by
  refine ⟨rfl, ?_, ?_⟩
  · intro h
    simp [enqueue, h]
  · intro h
    have hne : ¬ countQueuedRunning s uid ≥ MAX_QUEUED := by omega
    refine ⟨newJob s uid jid ms, ?_, rfl, rfl, rfl, ?_, ?_⟩
    · unfold enqueue
      rw [if_neg hne]
    · unfold enqueue
      rw [if_neg hne]
      exact mem_insertJob s.jobs (newJob s uid jid ms)
    · unfold enqueue
      rw [if_neg hne]
      simp

/-- Witness for `claim_C2_queue_admission` at a concrete state. -/
theorem claim_C2_queue_admission_witness :
    ∃ job,
      (enqueue emptyQState 1 "j1" false).2 = .ok job ∧
      job.job_id = "j1" ∧ job.user_id = 1 ∧ job.status = "queued" ∧
      job ∈ (enqueue emptyQState 1 "j1" false).1.jobs ∧
      (enqueue emptyQState 1 "j1" false).1.order 1 = emptyQState.order 1 ++ ["j1"] := by
  have h : countQueuedRunning emptyQState 1 < MAX_QUEUED := by decide
  exact (claim_C2_queue_admission emptyQState 1 "j1" false).2.2 h

/-- C10. Submission is atomic on rejection: when `enqueue` raises the
queue-full error, the scheduler state is returned unchanged — same job
registry and same queue orders. -/
theorem claim_C10_enqueue_atomic_on_rejection
    (s : QState) (uid : Int) (jid : String) (ms : Bool)
    (h : countQueuedRunning s uid ≥ MAX_QUEUED) :
    (enqueue s uid jid ms).1 = s ∧
    (enqueue s uid jid ms).1.jobs = s.jobs ∧
    (enqueue s uid jid ms).1.order = s.order := by
  simp [enqueue, h]

/-- Witness for `claim_C10_enqueue_atomic_on_rejection`: a state with ten
queued jobs for user 1 rejects an eleventh submission without mutation. -/
theorem claim_C10_enqueue_atomic_on_rejection_witness :
    (enqueue fullQState 1 "j11" false).1 = fullQState :=
  (claim_C10_enqueue_atomic_on_rejection fullQState 1 "j11" false (by decide)).1

/-! ### Persistence payloads (`PipelineJob.to_state/from_state`, `AppDatabase`) -/

/-- The `to_state()` payload of a job (`api/queue.py` lines 72-89), as fed
to `AppDatabase.save_job`. `created_at` stays optional because
`from_state` tolerates its absence. -/
structure StatePayload where
  job_id : String
  user_id : Int
  status : String
  created_at : Option Nat
  started_at : Option Nat
  finished_at : Option Nat
  error : Option String
  steps : List StepEventE
  result : Option ResObj
  speaker_required : Bool
  speaker_submitted : Bool
  note : Option String
  custom_name : Option String
  tags : List String
  published : Bool
deriving DecidableEq

/-- `PipelineJob.to_state`. -/
def toState (j : PipelineJobE) : StatePayload :=
  { job_id := j.job_id
    user_id := j.user_id
    status := j.status
    created_at := some j.created_at
    started_at := j.started_at
    finished_at := j.finished_at
    error := j.error
    steps := j.steps
    result := j.result
    speaker_required := j.speaker_required
    speaker_submitted := j.speaker_submitted
    note := j.note
    custom_name := j.custom_name
    tags := j.tags
    published := j.published }

/-- `PipelineJob.from_state` (`api/queue.py` lines 91-117); `now` stands
for `datetime.utcnow()` used when `created_at` is missing or unparsable.
The rebuilt job carries no progress queue and no speaker future. -/
def fromState (now : Nat) (p : StatePayload) : PipelineJobE :=
  { job_id := p.job_id
    user_id := p.user_id
    status := p.status
    created_at := p.created_at.getD now
    started_at := p.started_at
    finished_at := p.finished_at
    error := p.error
    steps := p.steps
    result := p.result
    speaker_required := p.speaker_required
    speaker_submitted := p.speaker_submitted
    speaker_future := none
    note := p.note
    custom_name := p.custom_name
    tags := p.tags
    published := p.published }

/-- A row of the `pipeline_jobs` table as written by
`AppDatabase.save_job` (`db.py` lines 324-367). `result_json` holds the
structural value behind `json.dumps` (SQL `NULL` = `none`). -/
structure JobRow where
  job_id : String
  user_id : Int
  status : String
  created_at : Option Nat
  started_at : Option Nat
  finished_at : Option Nat
  error : Option String
  result_json : Option ResObj
  speaker_required : Bool
  speaker_submitted : Bool
  note : Option String
  custom_name : Option String
  tags_json : List String
  published : Bool
deriving DecidableEq

/-- A row of the `pipeline_steps` table as written by
`AppDatabase.save_steps` (`db.py` lines 369-389); rows are read back
`ORDER BY id ASC`, i.e. in insertion order. -/
structure StepRow where
  job_id : String
  step : String
  status : String
  message : String
  detail : Option String
  timestamp : Nat
deriving DecidableEq

/-- `AppDatabase.save_job`: payload → `pipeline_jobs` row.
`json.dumps(payload.get("result"))` is stored only when the result is not
`None`; `tags_json` is `json.dumps(payload.get("tags") or [])`. -/
def saveJobRow (p : StatePayload) : JobRow :=
  { job_id := p.job_id
    user_id := p.user_id
    status := p.status
    created_at := p.created_at
    started_at := p.started_at
    finished_at := p.finished_at
    error := p.error
    result_json := p.result
    speaker_required := p.speaker_required
    speaker_submitted := p.speaker_submitted
    note := p.note
    custom_name := p.custom_name
    tags_json := p.tags
    published := p.published }

/-- `AppDatabase.save_steps`: one `pipeline_steps` row per step event, in
list order. -/
def saveStepRows (jid : String) (steps : List StepEventE) : List StepRow :=
  steps.map (fun e =>
    { job_id := jid, step := e.step, status := e.status, message := e.message,
      detail := e.detail, timestamp := e.timestamp })

/-- The step dictionaries rebuilt by `AppDatabase.load_jobs` from the step
rows of one job (`db.py` lines 399-410), in `id` order. -/
def loadStepsOf (rows : List StepRow) : List StepEventE :=
  rows.map (fun r =>
    { step := r.step, status := r.status, message := r.message,
      detail := r.detail, timestamp := r.timestamp })

/-- The job payload rebuilt by `AppDatabase.load_jobs` from a
`pipeline_jobs` row and its step rows (`db.py` lines 411-430). `json.loads`
of a stored `result_json` restores the structural value (`json.dumps`
output is never falsy, so the truthiness guard is exactly `isSome`). -/
def loadPayloadOfRow (row : JobRow) (steps : List StepEventE) : StatePayload :=
  { job_id := row.job_id
    user_id := row.user_id
    status := row.status
    created_at := row.created_at
    started_at := row.started_at
    finished_at := row.finished_at
    error := row.error
    steps := steps
    result := row.result_json
    speaker_required := row.speaker_required
    speaker_submitted := row.speaker_submitted
    note := row.note
    custom_name := row.custom_name
    tags := row.tags_json
    published := row.published }

/-- The synthetic error installed by crash recovery. -/
def restartError : String := "Server restarted before completion"

/-- The per-job correction applied by `PipelineQueue._load_state`
(`api/queue.py` lines 651-659) to a job rebuilt from a persisted payload:
jobs still `queued`/`running` are forced to `failed`, `job.error or
"Server restarted before completion"` replaces a falsy error, and
`job.finished_at or datetime.utcnow()` fills a missing finish time. -/
def correctJob (now : Nat) (job : PipelineJobE) : PipelineJobE :=
  if job.status = "queued" ∨ job.status = "running" then
    { job with
        status := "failed"
        error := some (match job.error with
          | none => restartError
          | some e => if e = "" then restartError else e)
        finished_at := some (job.finished_at.getD now) }
  else job

/-- `_load_state`'s treatment of one persisted payload: rebuild via
`from_state`, then apply the crash-recovery correction. -/
def loadStateJob (now : Nat) (p : StatePayload) : PipelineJobE :=
  correctJob now (fromState now p)

/-- C3. After loading persisted state, every job persisted as `queued` or
`running` has status `failed`, a non-empty error (the synthetic restart
error when none was persisted) and a non-null `finished_at`; jobs persisted
in terminal states are loaded unchanged. -/
theorem claim_C3_crash_recovery (p : StatePayload) (now : Nat) :
    (p.status = "queued" ∨ p.status = "running" →
      (loadStateJob now p).status = "failed" ∧
      (∃ e, (loadStateJob now p).error = some e ∧ e ≠ "") ∧
      (p.error = none → (loadStateJob now p).error = some restartError) ∧
      ((loadStateJob now p).finished_at).isSome = true) ∧
    (¬ (p.status = "queued" ∨ p.status = "running") →
      loadStateJob now p = fromState now p) := by
  have hif : (fromState now p).status = "queued" ∨ (fromState now p).status = "running" ↔
      p.status = "queued" ∨ p.status = "running" := Iff.rfl
  constructor
  · intro h
    unfold loadStateJob correctJob
    rw [if_pos (hif.mpr h)]
    refine ⟨rfl, ?_, ?_, rfl⟩
    · refine ⟨match (fromState now p).error with
        | none => restartError
        | some e => if e = "" then restartError else e, rfl, ?_⟩
      have herr : (fromState now p).error = p.error := rfl
      rw [herr]
      cases hpe : p.error with
      | none => simp [restartError]
      | some e =>
        by_cases he : e = ""
        · simp [he, restartError]
        · simp [he]
    · intro hnone
      have herr : (fromState now p).error = p.error := rfl
      simp [herr, hnone]
  · intro h
    unfold loadStateJob correctJob
    rw [if_neg (fun hc => h (hif.mp hc))]

/-- Witness for `claim_C3_crash_recovery`: a job persisted as `running`
with no error is loaded as `failed` with the synthetic restart error. -/
theorem claim_C3_crash_recovery_witness :
    (loadStateJob 7 ⟨"j1", 1, "running", some 0, some 1, none, none, [], none,
        false, false, none, none, [], false⟩).status = "failed" ∧
    (loadStateJob 7 ⟨"j1", 1, "running", some 0, some 1, none, none, [], none,
        false, false, none, none, [], false⟩).error = some restartError := by
  have h := claim_C3_crash_recovery
    ⟨"j1", 1, "running", some 0, some 1, none, none, [], none,
      false, false, none, none, [], false⟩ 7
  exact ⟨(h.1 (Or.inr rfl)).1, (h.1 (Or.inr rfl)).2.2.1 rfl⟩

/-- C4. Round-trip: persisting a job (its `to_state()` payload via
`save_job`, its step log via `save_steps`) and reading it back through
`load_jobs` and `from_state` reproduces identical `status`, `steps` (in
order), `result` and `tags`. -/
theorem claim_C4_persistence_roundtrip (j : PipelineJobE) (now : Nat) :
    let reloaded := fromState now
      (loadPayloadOfRow (saveJobRow (toState j))
        (loadStepsOf (saveStepRows j.job_id (toState j).steps)))
    reloaded.status = j.status ∧ reloaded.steps = j.steps ∧
    reloaded.result = j.result ∧ reloaded.tags = j.tags := by
  refine ⟨rfl, ?_, rfl, rfl⟩
  show (loadStepsOf (saveStepRows j.job_id j.steps)) = j.steps
  induction j.steps with
  | nil => rfl
  | cons e es ih => exact congrArg₂ List.cons rfl ih

/-! ### Queue reordering (`PipelineQueue.reorder_queue`) -/

theorem contains_true_iff (l : List String) (a : String) :
    l.contains a = true ↔ a ∈ l := List.elem_iff

/-- `current` in `reorder_queue`: the stored order filtered to ids still
present in `self._jobs`. -/
def currentOf (jobIds order : List String) : List String :=
  order.filter (fun jid => jobIds.contains jid)

/-- The pure core of `PipelineQueue.reorder_queue` (`api/queue.py` lines
639-645): requested ids present in `current` (in requested order) followed
by the rest of `current` in stored order. `jobIds` stands for
`self._jobs.keys()`. -/
def reorderList (jobIds order req : List String) : List String :=
  let current := currentOf jobIds order
  let wanted := req.filter (fun jid => current.contains jid)
  wanted ++ current.filter (fun jid => !wanted.contains jid)

theorem mem_reorderList_iff (jobIds order req : List String) (jid : String) :
    jid ∈ reorderList jobIds order req ↔ jid ∈ currentOf jobIds order := by
  unfold reorderList
  simp only [List.mem_append, List.mem_filter]
  constructor
  · rintro (h | h)
    · exact (contains_true_iff _ _).mp h.2
    · exact h.1
  · intro h
    by_cases hw : jid ∈ req ∧ (currentOf jobIds order).contains jid = true
    · exact Or.inl hw
    · refine Or.inr ⟨h, ?_⟩
      have hnot : jid ∉ req.filter (fun k => (currentOf jobIds order).contains k) := by
        rw [List.mem_filter]
        exact hw
      cases hcb : (req.filter (fun k => (currentOf jobIds order).contains k)).contains jid with
      | false => rfl
      | true => exact absurd ((contains_true_iff _ _).mp hcb) hnot

theorem reorderList_idem (jobIds order req : List String) :
    reorderList jobIds (reorderList jobIds order req) req =
      reorderList jobIds order req := by
  have hC : ∀ x ∈ currentOf jobIds order, jobIds.contains x = true := by
    intro x hx
    exact (List.mem_filter.mp hx).2
  have hL : ∀ x ∈ reorderList jobIds order req, jobIds.contains x = true := by
    intro x hx
    exact hC x ((mem_reorderList_iff jobIds order req x).mp hx)
  have hcur : currentOf jobIds (reorderList jobIds order req) =
      reorderList jobIds order req := List.filter_eq_self.mpr hL
  have hcong : ∀ x, (reorderList jobIds order req).contains x =
      (currentOf jobIds order).contains x := by
    intro x
    by_cases h : x ∈ currentOf jobIds order
    · have h2 : x ∈ reorderList jobIds order req :=
        (mem_reorderList_iff jobIds order req x).mpr h
      rw [(contains_true_iff _ _).mpr h, (contains_true_iff _ _).mpr h2]
    · have h2 : x ∉ reorderList jobIds order req :=
        fun hc => h ((mem_reorderList_iff jobIds order req x).mp hc)
      have e1 : (reorderList jobIds order req).contains x = false := by
        rw [← Bool.not_eq_true]
        intro hc
        exact h2 ((contains_true_iff _ _).mp hc)
      have e2 : (currentOf jobIds order).contains x = false := by
        rw [← Bool.not_eq_true]
        intro hc
        exact h ((contains_true_iff _ _).mp hc)
      rw [e1, e2]
  show
    (req.filter (fun jid => (currentOf jobIds (reorderList jobIds order req)).contains jid)) ++
      (currentOf jobIds (reorderList jobIds order req)).filter
        (fun jid => !(req.filter
          (fun k => (currentOf jobIds (reorderList jobIds order req)).contains k)).contains jid) =
      reorderList jobIds order req
  rw [hcur]
  have hwanted : req.filter (fun jid => (reorderList jobIds order req).contains jid) =
      req.filter (fun jid => (currentOf jobIds order).contains jid) :=
    List.filter_congr (fun jid _ => hcong jid)
  rw [hwanted]
  show
    (req.filter (fun jid => (currentOf jobIds order).contains jid)) ++
      (reorderList jobIds order req).filter
        (fun jid => !(req.filter (fun k => (currentOf jobIds order).contains k)).contains jid) =
      reorderList jobIds order req
  conv_rhs => rw [reorderList]
  congr 1
  show
    ((req.filter (fun jid => (currentOf jobIds order).contains jid)) ++
      (currentOf jobIds order).filter
        (fun jid => !(req.filter (fun k => (currentOf jobIds order).contains k)).contains jid)).filter
      (fun jid => !(req.filter (fun k => (currentOf jobIds order).contains k)).contains jid) =
    (currentOf jobIds order).filter
      (fun jid => !(req.filter (fun k => (currentOf jobIds order).contains k)).contains jid)
  rw [List.filter_append]
  have h1 : (req.filter (fun jid => (currentOf jobIds order).contains jid)).filter
      (fun jid => !(req.filter (fun k => (currentOf jobIds order).contains k)).contains jid) = [] := by
    rw [List.filter_eq_nil_iff]
    intro jid hjid
    rw [(contains_true_iff _ _).mpr hjid]
    simp
  have h2 : ((currentOf jobIds order).filter
        (fun jid => !(req.filter (fun k => (currentOf jobIds order).contains k)).contains jid)).filter
      (fun jid => !(req.filter (fun k => (currentOf jobIds order).contains k)).contains jid) =
      (currentOf jobIds order).filter
        (fun jid => !(req.filter (fun k => (currentOf jobIds order).contains k)).contains jid) := by
    rw [List.filter_filter]
    exact List.filter_congr (fun jid _ => by
      cases h : (req.filter (fun k => (currentOf jobIds order).contains k)).contains jid <;> simp [h])
  rw [h1, h2, List.nil_append]

/-- C5. `reorder_queue` produces the requested ids that are currently in
the user's queue order (in requested order) followed by the remaining
queued ids in their previous relative order, dropping none; applying the
same request twice yields the same order as applying it once. -/
theorem claim_C5_reorder (jobIds order req : List String) :
    reorderList jobIds order req =
      (req.filter (fun jid => (currentOf jobIds order).contains jid)) ++
        ((currentOf jobIds order).filter (fun jid =>
          !(req.filter (fun k => (currentOf jobIds order).contains k)).contains jid)) ∧
    (∀ jid ∈ currentOf jobIds order, jid ∈ reorderList jobIds order req) ∧
    reorderList jobIds (reorderList jobIds order req) req =
      reorderList jobIds order req :=
  ⟨rfl, fun jid h => (mem_reorderList_iff jobIds order req jid).mpr h,
    reorderList_idem jobIds order req⟩

/-- Witness for `claim_C5_reorder`: a partial request keeps all queued ids
and the reorder is idempotent on a concrete queue. -/
theorem claim_C5_reorder_witness :
    "a" ∈ reorderList ["a", "b", "c"] ["a", "b", "c"] ["c"] ∧
    reorderList ["a", "b", "c"] (reorderList ["a", "b", "c"] ["a", "b", "c"] ["c"]) ["c"] =
      reorderList ["a", "b", "c"] ["a", "b", "c"] ["c"] :=
  ⟨(claim_C5_reorder ["a", "b", "c"] ["a", "b", "c"] ["c"]).2.1 "a" (by decide),
    (claim_C5_reorder ["a", "b", "c"] ["a", "b", "c"] ["c"]).2.2⟩

/-! ### Speaker-clip candidate selection (`pipeline.py`) -/

/-- A transcript segment as consumed by `_group_segments_by_speaker`
(`pipeline.py` lines 595-606); `stop` models the `"end"` key. -/
structure TSeg where
  speaker : Option String
  start : ℚ
  stop : ℚ

/-- A `{start, end}` pair grouped under a speaker tag. -/
structure Seg where
  start : ℚ
  stop : ℚ
deriving DecidableEq

/-- A candidate entry `{speaker, start, end, duration}` built by
`_build_speaker_clip_candidates`. -/
structure Cand where
  speaker : String
  start : ℚ
  stop : ℚ
  duration : ℚ
deriving DecidableEq

/-- `grouped.setdefault(speaker, []).append(seg)`. -/
def addToGroup (gs : List (String × List Seg)) (k : String) (v : Seg) :
    List (String × List Seg) :=
  if gs.any (fun p => p.1 == k) then
    gs.map (fun p => if p.1 == k then (p.1, p.2 ++ [v]) else p)
  else gs ++ [(k, [v])]

/-- `_group_segments_by_speaker`: group transcript segments by speaker tag
in encounter order, skipping segments with a falsy speaker. -/
def groupBySpeaker (transcript : List TSeg) : List (String × List Seg) :=
  transcript.foldl (fun gs t =>
    match t.speaker with
    | none => gs
    | some sp => if sp = "" then gs else addToGroup gs sp ⟨t.start, t.stop⟩) []

/-- `_segments_overlap` (`pipeline.py` lines 912-913):
`not (a_end <= b_start or b_end <= a_start)`. -/
def segmentsOverlap (aStart aEnd bStart bEnd : ℚ) : Bool :=
  ! (decide (aEnd ≤ bStart) || decide (bEnd ≤ aStart))

/-- The valid (`end > start`) candidate entries of one speaker's segments
(the `items` list in `_build_speaker_clip_candidates`; the same mapping
builds `all_segments` across all speakers). -/
def itemsFor (sp : String) (segs : List Seg) : List Cand :=
  segs.filterMap (fun g =>
    if g.stop ≤ g.start then none
    else some ⟨sp, g.start, g.stop, g.stop - g.start⟩)

/-- `all_segments` in `_build_speaker_clip_candidates`. -/
def allSegmentsOf (grouped : List (String × List Seg)) : List Cand :=
  grouped.flatMap (fun p => itemsFor p.1 p.2)

/-- The `non_overlap` pool: valid entries with no temporal overlap against
any segment of a different speaker. -/
def nonOverlapFor (allSegs : List Cand) (sp : String) (segs : List Seg) : List Cand :=
  (itemsFor sp segs).filter (fun e =>
    ! allSegs.any (fun o =>
      (! (o.speaker == sp)) && segmentsOverlap e.start e.stop o.start o.stop))

/-- `target = (min_duration + max_duration) / 2`. -/
def targetDuration (minD maxD : ℚ) : ℚ := (minD + maxD) / 2

/-- Python's `abs`, written so that the kernel can evaluate it on `ℚ`. -/
def ratAbs (q : ℚ) : ℚ := if q < 0 then -q else q

theorem ratAbs_eq_abs (q : ℚ) : ratAbs q = |q| := by
  unfold ratAbs
  by_cases h : q < 0
  · rw [if_pos h, abs_of_neg h]
  · rw [if_neg h, abs_of_nonneg (le_of_not_lt h)]

theorem ratAbs_self_zero (q : ℚ) : ratAbs (q - q) = 0 := by
  rw [ratAbs_eq_abs, sub_self, abs_zero]

/-- Python's `min(itr, key=f)`: first element with minimal key. -/
def argminBy (f : Cand → ℚ) : List Cand → Option Cand
  | [] => none
  | x :: xs => some (xs.foldl (fun acc y => if f y < f acc then y else acc) x)

/-- The 1 ms start/end match used to test whether the closest-to-target
segment is already among the chosen candidates. -/
def candMatch (c d : Cand) : Bool :=
  decide (ratAbs (c.start - d.start) < 1/1000) && decide (ratAbs (c.stop - d.stop) < 1/1000)

/-- Python's stable descending sort by duration
(`source.sort(key=duration, reverse=True)`). -/
def sortByDurationDesc (l : List Cand) : List Cand :=
  List.insertionSort (fun a b => b.duration ≤ a.duration) l

/-- The per-speaker tail of `_build_speaker_clip_candidates` (`pipeline.py`
lines 683-698), applied to a non-empty `source` pool: sort descending by
duration, take the top `max_candidates`, append the closest-to-target
segment when it is not already matched, then re-cap at `max_candidates`. -/
def candListFor (minD maxD : ℚ) (maxCand : Nat) (source : List Cand) : List Cand :=
  match argminBy (fun d => ratAbs (d.duration - targetDuration minD maxD))
      (sortByDurationDesc source) with
  | none => ((sortByDurationDesc source).take maxCand).take maxCand
  | some closest =>
      (if ((sortByDurationDesc source).take maxCand).any (fun c => candMatch c closest) then
        (sortByDurationDesc source).take maxCand
      else ((sortByDurationDesc source).take maxCand) ++ [closest]).take maxCand

/-- `_build_speaker_clip_candidates` (`pipeline.py` lines 640-700). -/
def buildSpeakerClipCandidates (grouped : List (String × List Seg))
    (minD : ℚ := 15) (maxD : ℚ := 30) (maxCand : Nat := 5) :
    List (String × List Cand) :=
  let allSegs := allSegmentsOf grouped
  grouped.filterMap (fun p =>
    let items := itemsFor p.1 p.2
    let nonOverlap := nonOverlapFor allSegs p.1 p.2
    let source := if nonOverlap.isEmpty then items else nonOverlap
    if source.isEmpty then none
    else some (p.1, candListFor minD maxD maxCand source))

/-- The per-speaker body of `_pick_representative_segments` (`pipeline.py`
lines 616-637): prefer in-window candidates closest to the target,
otherwise the longest candidate. -/
def pickFor (minD maxD : ℚ) (segs : List Cand) : Option Cand :=
  if segs.isEmpty then none
  else if (segs.filter (fun s =>
      decide (minD ≤ s.duration) && decide (s.duration ≤ maxD))).isEmpty then
    match sortByDurationDesc segs with
    | [] => none
    | x :: _ => some x
  else
    match List.insertionSort
        (fun a b => ratAbs (a.duration - targetDuration minD maxD) ≤
          ratAbs (b.duration - targetDuration minD maxD))
        (segs.filter (fun s =>
          decide (minD ≤ s.duration) && decide (s.duration ≤ maxD))) with
    | [] => none
    | x :: _ => some x

/-- `_pick_representative_segments` over a per-speaker candidate map. -/
def pickRepresentativeSegments (minD maxD : ℚ)
    (candidates : List (String × List Cand)) : List (String × Cand) :=
  candidates.filterMap (fun p => (pickFor minD maxD p.2).map (fun c => (p.1, c)))

/-- `speaker_clip_selected = {tag: 0 for tag in ...}` (`pipeline.py` lines
282-284): the default selected entry written the first time speakers are
processed. -/
def speakerClipSelectedInit (tags : List String) : List (String × Nat) :=
  tags.map (fun t => (t, 0))

/-! ### Lemmas about the candidate builder and representative picker -/

theorem argmin_foldl_mem (f : Cand → ℚ) (xs : List Cand) (x : Cand) :
    xs.foldl (fun acc y => if f y < f acc then y else acc) x ∈ x :: xs := by
  induction xs generalizing x with
  | nil => exact List.mem_singleton.mpr rfl
  | cons y ys ih =>
    rw [List.foldl_cons]
    by_cases h : f y < f x
    · rw [if_pos h]
      exact List.mem_cons.mpr (Or.inr (ih y))
    · rw [if_neg h]
      rcases List.mem_cons.mp (ih x) with h3 | h3
      · exact List.mem_cons.mpr (Or.inl h3)
      · exact List.mem_cons.mpr (Or.inr (List.mem_cons.mpr (Or.inr h3)))

theorem argminBy_mem (f : Cand → ℚ) (l : List Cand) (c : Cand)
    (h : argminBy f l = some c) : c ∈ l := by
  cases l with
  | nil => exact absurd h (by simp [argminBy])
  | cons x xs =>
    rw [argminBy, Option.some_inj] at h
    exact h ▸ argmin_foldl_mem f xs x

theorem candMatch_self (c : Cand) : candMatch c c = true := by
  unfold candMatch
  rw [ratAbs_self_zero, ratAbs_self_zero]
  norm_num

theorem sortByDurationDesc_ne_nil (source : List Cand) (h : source ≠ []) :
    sortByDurationDesc source ≠ [] := by
  intro hc
  have hp := List.perm_insertionSort (fun a b : Cand => b.duration ≤ a.duration) source
  rw [sortByDurationDesc] at hc
  rw [hc] at hp
  exact h (List.Perm.eq_nil hp.symm)

/-- The augmentation step of the candidate builder is a no-op: because the
closest-to-target segment is appended and the list is then re-capped at
`max_candidates`, the result is always exactly the `max_candidates` longest
segments of the pool. -/
theorem candListFor_eq_take (minD maxD : ℚ) (maxCand : Nat) (source : List Cand)
    (h : source ≠ []) :
    candListFor minD maxD maxCand source = (sortByDurationDesc source).take maxCand := by
  have hs := sortByDurationDesc_ne_nil source h
  obtain ⟨x, xs, hsx⟩ := List.exists_cons_of_ne_nil hs
  have hmin : argminBy (fun d => ratAbs (d.duration - targetDuration minD maxD))
      (sortByDurationDesc source) =
      some (xs.foldl (fun acc y =>
        if ratAbs (y.duration - targetDuration minD maxD) <
            ratAbs (acc.duration - targetDuration minD maxD) then y else acc) x) := by
    rw [hsx, argminBy]
  set closest := xs.foldl (fun acc y =>
    if ratAbs (y.duration - targetDuration minD maxD) <
        ratAbs (acc.duration - targetDuration minD maxD) then y else acc) x with hcl
  have hclmem : closest ∈ sortByDurationDesc source := by
    rw [hsx]
    exact argmin_foldl_mem _ xs x
  rw [candListFor, hmin]
  show (List.take maxCand
      (if ((List.take maxCand (sortByDurationDesc source)).any fun c => candMatch c closest) = true then
        List.take maxCand (sortByDurationDesc source)
      else List.take maxCand (sortByDurationDesc source) ++ [closest])) =
    List.take maxCand (sortByDurationDesc source)
  by_cases hany : ((List.take maxCand (sortByDurationDesc source)).any
      (fun c => candMatch c closest)) = true
  · rw [if_pos hany, List.take_take, min_self]
  · rw [if_neg hany]
    have hlen : maxCand ≤ (sortByDurationDesc source).length := by
      by_contra hlt
      push_neg at hlt
      apply hany
      rw [List.take_of_length_le (le_of_lt hlt), List.any_eq_true]
      exact ⟨closest, hclmem, candMatch_self closest⟩
    have hlen2 : maxCand ≤ ((sortByDurationDesc source).take maxCand).length := by
      rw [List.length_take]
      omega
    rw [List.take_append_of_le_length hlen2, List.take_take, min_self]

theorem sortByDurationDesc_sorted (l : List Cand) :
    List.Sorted (fun a b : Cand => b.duration ≤ a.duration) (sortByDurationDesc l) := by
  haveI : IsTotal Cand (fun a b : Cand => b.duration ≤ a.duration) :=
    ⟨fun a b => le_total b.duration a.duration⟩
  haveI : IsTrans Cand (fun a b : Cand => b.duration ≤ a.duration) :=
    ⟨fun _ _ _ hab hbc => le_trans hbc hab⟩
  exact List.sorted_insertionSort _ l

/-- On a list already sorted by descending duration whose in-window subset
is empty, `_pick_representative_segments` returns the head. -/
theorem pickFor_head_of_no_window (minD maxD : ℚ) (segs : List Cand)
    (hsorted : List.Sorted (fun a b : Cand => b.duration ≤ a.duration) segs)
    (hwin : (segs.filter (fun s =>
      decide (minD ≤ s.duration) && decide (s.duration ≤ maxD))).isEmpty = true) :
    pickFor minD maxD segs = segs.head? := by
  cases segs with
  | nil => rfl
  | cons y ys =>
    rw [pickFor, if_neg (by simp), if_pos hwin]
    have hss : sortByDurationDesc (y :: ys) = y :: ys :=
      List.Sorted.insertionSort_eq hsorted
    rw [hss]
    rfl

theorem selectedInit_find (tags : List String) (tag : String) (h : tag ∈ tags) :
    (speakerClipSelectedInit tags).find? (fun p => p.1 == tag) = some (tag, 0) := by
  induction tags with
  | nil => exact absurd h (List.not_mem_nil tag)
  | cons t ts ih =>
    rw [speakerClipSelectedInit, List.map_cons]
    by_cases ht : t = tag
    · rw [List.find?_cons_of_pos _ (by simp [ht]), ht]
    · rw [List.find?_cons_of_neg _ (by simp [ht])]
      rcases List.mem_cons.mp h with h2 | h2
      · exact absurd h2.symm ht
      · exact ih h2

theorem take_sorted_desc (maxCand : Nat) (l : List Cand) :
    List.Sorted (fun a b : Cand => b.duration ≤ a.duration)
      ((sortByDurationDesc l).take maxCand) :=
  List.Pairwise.sublist (List.take_sublist maxCand _) (sortByDurationDesc_sorted l)

/-! ### C6, C7, C8 -/

/-- The six-segment pool of a single speaker used against C6: five long
segments and one of exactly 22.5 s (`1045/2 - 500`), the duration closest
to the 22.5 s target. -/
def c6Segs : List Seg :=
  [⟨0, 60⟩, ⟨100, 159⟩, ⟨200, 258⟩, ⟨300, 357⟩, ⟨400, 456⟩, ⟨500, 1045/2⟩]

/-- The five longest entries of `c6Segs`, as built by the builder. -/
def c6Top5 : List Cand :=
  [⟨"SPEAKER1", 0, 60, 60⟩, ⟨"SPEAKER1", 100, 159, 59⟩, ⟨"SPEAKER1", 200, 258, 58⟩,
    ⟨"SPEAKER1", 300, 357, 57⟩, ⟨"SPEAKER1", 400, 456, 56⟩]

/-- The pool segment of `c6Segs` closest to the 22.5 s target. -/
def c6Closest : Cand := ⟨"SPEAKER1", 500, 1045/2, 45/2⟩

/-- C6 counterexample: for a single speaker with six segments, the pool is
non-empty and its closest-to-target segment (22.5 s) is NOT in the returned
candidate list — the builder appends it and the re-cap at 5 immediately
drops it, so the claimed guarantee fails. -/
theorem claim_C6_counterexample :
    buildSpeakerClipCandidates [("SPEAKER1", c6Segs)] = [("SPEAKER1", c6Top5)] ∧
    argminBy (fun d => ratAbs (d.duration - targetDuration 15 30))
      (sortByDurationDesc (itemsFor "SPEAKER1" c6Segs)) = some c6Closest ∧
    c6Closest ∉ c6Top5 ∧
    c6Top5.all (fun c => !candMatch c c6Closest) = true := by
  refine ⟨?_, ?_, ?_, ?_⟩
  · norm_num +decide [buildSpeakerClipCandidates, allSegmentsOf, itemsFor, nonOverlapFor,
      segmentsOverlap, candListFor, sortByDurationDesc,
      List.insertionSort, List.orderedInsert, argminBy, targetDuration, candMatch,
      ratAbs, c6Segs, c6Top5, List.filterMap_cons, List.filter_cons, List.any_cons,
      List.any_nil, List.foldl_cons, List.foldl_nil]
  · norm_num +decide [itemsFor, sortByDurationDesc, List.insertionSort, List.orderedInsert,
      argminBy, targetDuration, ratAbs, c6Segs, c6Closest, List.filterMap_cons,
      List.foldl_cons, List.foldl_nil]
  · norm_num +decide [c6Top5, c6Closest, Cand.mk.injEq]
  · norm_num +decide [c6Top5, c6Closest, candMatch, ratAbs, targetDuration,
      List.all_cons, List.all_nil]

/-- C6 amended: for every non-empty pool, the returned candidate list is
exactly the `max_candidates` longest pool segments (stable descending
order); in particular the closest-to-target segment is offered if and only
if it is among those longest segments — the append-then-recap step never
adds it. -/
theorem claim_C6_amended (minD maxD : ℚ) (maxCand : Nat) (source : List Cand)
    (h : source ≠ []) :
    candListFor minD maxD maxCand source = (sortByDurationDesc source).take maxCand ∧
    (∀ closest, argminBy (fun d => ratAbs (d.duration - targetDuration minD maxD))
        (sortByDurationDesc source) = some closest →
      (closest ∈ candListFor minD maxD maxCand source ↔
        closest ∈ (sortByDurationDesc source).take maxCand)) := by
  have h1 := candListFor_eq_take minD maxD maxCand source h
  exact ⟨h1, fun closest _ => by rw [h1]⟩

/-- Witness for `claim_C6_amended` on a one-segment pool. -/
theorem claim_C6_amended_witness :
    candListFor 15 30 5 [⟨"S", 0, 40, 40⟩] =
      (sortByDurationDesc [⟨"S", 0, 40, 40⟩]).take 5 :=
  (claim_C6_amended 15 30 5 [⟨"S", 0, 40, 40⟩] (List.cons_ne_nil _ _)).1

/-- A candidate list for C7: the longest candidate (40 s) is out of the
preferred window while the second (22.5 s) sits exactly on the target. -/
def c7Cands : List Cand :=
  [⟨"SPEAKER1", 0, 40, 40⟩, ⟨"SPEAKER1", 100, 245/2, 45/2⟩]

/-- The representative pick for `c7Cands`. -/
def c7Pick : Cand := ⟨"SPEAKER1", 100, 245/2, 45/2⟩

/-- C7 counterexample: the first-time default selected entry is written as
index 0 for every tag (`speaker_clip_selected = {tag: 0 ...}`), but the
representative pick of `c7Cands` sits at index 1, so the default selected
entry is not the index of the representative pick. -/
theorem claim_C7_counterexample :
    speakerClipSelectedInit ["SPEAKER1"] = [("SPEAKER1", 0)] ∧
    pickRepresentativeSegments 15 30 [("SPEAKER1", c7Cands)] = [("SPEAKER1", c7Pick)] ∧
    c7Cands.indexOf c7Pick = 1 ∧
    ¬ ((0 : Nat) = c7Cands.indexOf c7Pick) := by
  refine ⟨rfl, ?_, ?_, ?_⟩
  · norm_num +decide [pickRepresentativeSegments, pickFor, targetDuration, ratAbs,
      sortByDurationDesc, List.insertionSort, List.orderedInsert, c7Cands, c7Pick,
      List.filterMap_cons, List.filter_cons]
  · norm_num +decide [c7Cands, c7Pick, List.indexOf, List.findIdx, List.findIdx.go]
  · norm_num +decide [c7Cands, c7Pick, List.indexOf, List.findIdx, List.findIdx.go]

/-- C7 amended: the first-time default selected entry is always index 0 for
every speaker tag; since the candidate list is sorted by descending
duration, this is the longest candidate, and it coincides with the
representative pick exactly in the fallback case — when no candidate lies
in `[minDuration, maxDuration]`, the picker returns the head (index 0) of
the builder's candidate list. -/
theorem claim_C7_amended :
    (∀ (tags : List String) (tag : String), tag ∈ tags →
      (speakerClipSelectedInit tags).find? (fun p => p.1 == tag) = some (tag, 0)) ∧
    (∀ (minD maxD : ℚ) (maxCand : Nat) (source : List Cand), source ≠ [] →
      ((candListFor minD maxD maxCand source).filter (fun s =>
        decide (minD ≤ s.duration) && decide (s.duration ≤ maxD))).isEmpty = true →
      pickFor minD maxD (candListFor minD maxD maxCand source) =
        (candListFor minD maxD maxCand source).head?) := by
  refine ⟨selectedInit_find, ?_⟩
  intro minD maxD maxCand source hne hwin
  have heq := candListFor_eq_take minD maxD maxCand source hne
  rw [heq] at hwin ⊢
  exact pickFor_head_of_no_window minD maxD _ (take_sorted_desc maxCand source) hwin

/-- Witness for `claim_C7_amended`: a single out-of-window candidate. -/
theorem claim_C7_amended_witness :
    (speakerClipSelectedInit ["S"]).find? (fun p => p.1 == "S") = some ("S", 0) ∧
    pickFor 15 30 (candListFor 15 30 5 [⟨"S", 0, 40, 40⟩]) =
      (candListFor 15 30 5 [⟨"S", 0, 40, 40⟩]).head? :=
  ⟨claim_C7_amended.1 ["S"] "S" (List.mem_singleton.mpr rfl),
    claim_C7_amended.2 15 30 5 [⟨"S", 0, 40, 40⟩] (List.cons_ne_nil _ _)
      (by norm_num +decide [candListFor, sortByDurationDesc, List.insertionSort,
        List.orderedInsert, argminBy, targetDuration, ratAbs, candMatch,
        List.filter_cons])⟩

/-- The transcript of the C8 scenario. -/
def c8Transcript : List TSeg :=
  [⟨some "A", 0, 20⟩, ⟨some "B", 5, 15⟩, ⟨some "A", 30, 55⟩]

/-- C8. On the transcript `[{A,0,20}, {B,5,15}, {A,30,55}]`: A's 0-20
segment overlaps B's 5-15 under the overlap predicate while 30-55 does not,
A's non-overlapping pool is exactly the 30-55 (25 s) segment, and the
representative pick for A is that 25 s segment. -/
theorem claim_C8_concrete_scenario :
    groupBySpeaker c8Transcript = [("A", [⟨0, 20⟩, ⟨30, 55⟩]), ("B", [⟨5, 15⟩])] ∧
    segmentsOverlap 0 20 5 15 = true ∧
    segmentsOverlap 30 55 5 15 = false ∧
    nonOverlapFor (allSegmentsOf (groupBySpeaker c8Transcript)) "A" [⟨0, 20⟩, ⟨30, 55⟩] =
      [⟨"A", 30, 55, 25⟩] ∧
    buildSpeakerClipCandidates (groupBySpeaker c8Transcript) =
      [("A", [⟨"A", 30, 55, 25⟩]), ("B", [⟨"B", 5, 15, 10⟩])] ∧
    pickRepresentativeSegments 15 30 (buildSpeakerClipCandidates (groupBySpeaker c8Transcript)) =
      [("A", ⟨"A", 30, 55, 25⟩), ("B", ⟨"B", 5, 15, 10⟩)] := by
  have hg : groupBySpeaker c8Transcript =
      [("A", [⟨0, 20⟩, ⟨30, 55⟩]), ("B", [⟨5, 15⟩])] := by
    norm_num +decide [groupBySpeaker, addToGroup, c8Transcript]
  have hall : allSegmentsOf [("A", [⟨0, 20⟩, ⟨30, 55⟩]), ("B", [(⟨5, 15⟩ : Seg)])] =
      [⟨"A", 0, 20, 20⟩, ⟨"A", 30, 55, 25⟩, ⟨"B", 5, 15, 10⟩] := by
    norm_num +decide [allSegmentsOf, itemsFor, List.filterMap_cons]
  have hb : buildSpeakerClipCandidates (groupBySpeaker c8Transcript) =
      [("A", [⟨"A", 30, 55, 25⟩]), ("B", [⟨"B", 5, 15, 10⟩])] := by
    rw [buildSpeakerClipCandidates, hg, hall]
    norm_num +decide [itemsFor, nonOverlapFor, segmentsOverlap, candListFor,
      sortByDurationDesc, List.insertionSort, List.orderedInsert, argminBy,
      targetDuration, candMatch, ratAbs, hall, List.filterMap_cons, List.filter_cons,
      List.any_cons, List.any_nil, List.foldl_cons, List.foldl_nil]
  refine ⟨hg, ?_, ?_, ?_, hb, ?_⟩
  · norm_num [segmentsOverlap]
  · norm_num [segmentsOverlap]
  · rw [hg, hall]
    norm_num +decide [nonOverlapFor, itemsFor, segmentsOverlap,
      List.filterMap_cons, List.filter_cons, List.any_cons, List.any_nil]
  · rw [hb]
    norm_num +decide [pickRepresentativeSegments, pickFor, targetDuration, ratAbs,
      sortByDurationDesc, List.insertionSort, List.orderedInsert,
      List.filterMap_cons, List.filter_cons]

/-! ### Manual speaker input (`PipelineQueue.submit_speakers`) -/

/-- The job update performed on a successful speaker submission. -/
def fulfillSpeakers (p : String) (j : PipelineJobE) : PipelineJobE :=
  { j with speaker_submitted := true, speaker_future := some (some p) }

/-- `PipelineQueue.submit_speakers` (`api/queue.py` lines 576-589) acting
on the `_jobs` registry: unknown job, `speaker_required` false, a missing
future, or an already-fulfilled future raise; otherwise `speaker_submitted`
is set and the one-shot future is fulfilled with the payload. Returns the
updated registry and the updated job. -/
def submitSpeakers (jobs : List PipelineJobE) (jid : String) (payload : String) :
    Except String (List PipelineJobE × PipelineJobE) :=
  match jobs.find? (fun j => j.job_id == jid) with
  | none => .error "Job not found"
  | some job =>
    if ¬ job.speaker_required then .error "Speaker input not required for this job"
    else match job.speaker_future with
      | none => .error "Speaker input not available for this job"
      | some (some _) => .error "Speaker input already submitted"
      | some none =>
          .ok (jobs.map (fun j => if j.job_id == jid then fulfillSpeakers payload j else j),
            fulfillSpeakers payload job)

theorem submitSpeakers_not_found (jobs : List PipelineJobE) (jid p : String)
    (h : jobs.find? (fun j => j.job_id == jid) = none) :
    submitSpeakers jobs jid p = .error "Job not found" := by
  rw [submitSpeakers, h]

theorem submitSpeakers_not_required (jobs : List PipelineJobE) (jid p : String)
    (job : PipelineJobE) (h : jobs.find? (fun j => j.job_id == jid) = some job)
    (hreq : job.speaker_required = false) :
    submitSpeakers jobs jid p = .error "Speaker input not required for this job" := by
  rw [submitSpeakers, h]
  show (if ¬ job.speaker_required then Except.error "Speaker input not required for this job"
    else _) = _
  rw [if_pos (by rw [hreq]; exact Bool.false_ne_true)]

theorem submitSpeakers_no_future (jobs : List PipelineJobE) (jid p : String)
    (job : PipelineJobE) (h : jobs.find? (fun j => j.job_id == jid) = some job)
    (hreq : job.speaker_required = true) (hfut : job.speaker_future = none) :
    submitSpeakers jobs jid p = .error "Speaker input not available for this job" := by
  rw [submitSpeakers, h]
  show (if ¬ job.speaker_required then Except.error "Speaker input not required for this job"
    else _) = _
  rw [if_neg (by rw [hreq]; exact not_not_intro rfl), hfut]

theorem submitSpeakers_already_done (jobs : List PipelineJobE) (jid p : String)
    (job : PipelineJobE) (s : String) (h : jobs.find? (fun j => j.job_id == jid) = some job)
    (hreq : job.speaker_required = true) (hfut : job.speaker_future = some (some s)) :
    submitSpeakers jobs jid p = .error "Speaker input already submitted" := by
  rw [submitSpeakers, h]
  show (if ¬ job.speaker_required then Except.error "Speaker input not required for this job"
    else _) = _
  rw [if_neg (by rw [hreq]; exact not_not_intro rfl), hfut]

theorem submitSpeakers_ok (jobs : List PipelineJobE) (jid p : String)
    (job : PipelineJobE) (h : jobs.find? (fun j => j.job_id == jid) = some job)
    (hreq : job.speaker_required = true) (hfut : job.speaker_future = some none) :
    submitSpeakers jobs jid p =
      .ok (jobs.map (fun j => if j.job_id == jid then fulfillSpeakers p j else j),
        fulfillSpeakers p job) := by
  rw [submitSpeakers, h]
  show (if ¬ job.speaker_required then Except.error "Speaker input not required for this job"
    else _) = _
  rw [if_neg (by rw [hreq]; exact not_not_intro rfl), hfut]

theorem find?_map_update (jobs : List PipelineJobE) (jid : String) (job : PipelineJobE)
    (g : PipelineJobE → PipelineJobE) (hg : ∀ j, (g j).job_id = j.job_id)
    (h : jobs.find? (fun j => j.job_id == jid) = some job) :
    (jobs.map (fun j => if j.job_id == jid then g j else j)).find?
      (fun j => j.job_id == jid) = some (g job) := by
  induction jobs with
  | nil => simp at h
  | cons a l ih =>
    by_cases ha : (a.job_id == jid) = true
    · rw [List.find?_cons_of_pos (p := fun j => j.job_id == jid) (a := a) l ha,
        Option.some_inj] at h
      rw [List.map_cons, if_pos ha]
      have hga : ((g a).job_id == jid) = true := by
        rw [hg a]
        exact ha
      rw [List.find?_cons_of_pos (p := fun j => j.job_id == jid) (a := g a) _ hga, h]
    · rw [List.find?_cons_of_neg (p := fun j => j.job_id == jid) (a := a) l ha] at h
      rw [List.map_cons, if_neg ha,
        List.find?_cons_of_neg (p := fun j => j.job_id == jid) (a := a) _ ha]
      exact ih h

/-- C9. `submit_speakers` raises exactly when the job is unknown, does not
require speaker input, has no input gate, or the gate is already
fulfilled; on success the returned job has `speaker_required` true,
`speaker_submitted` true, its gate fulfilled with the payload, and any
further submission for that job raises — so `speaker_submitted` becomes
true at most once, and only for a job requiring speaker input. -/
theorem claim_C9_submit_speaker_input (jobs : List PipelineJobE) (jid p : String) :
    ((∃ e, submitSpeakers jobs jid p = .error e) ↔
      jobs.find? (fun j => j.job_id == jid) = none ∨
      (∃ job, jobs.find? (fun j => j.job_id == jid) = some job ∧
        (job.speaker_required = false ∨ job.speaker_future = none ∨
          ∃ s, job.speaker_future = some (some s)))) ∧
    (∀ jobs' job', submitSpeakers jobs jid p = .ok (jobs', job') →
      job'.speaker_required = true ∧ job'.speaker_submitted = true ∧
      job'.speaker_future = some (some p) ∧
      ∀ q, ∃ e, submitSpeakers jobs' jid q = .error e) := by
  cases hf : jobs.find? (fun j => j.job_id == jid) with
  | none =>
    rw [submitSpeakers_not_found jobs jid p hf]
    exact ⟨⟨fun _ => Or.inl rfl, fun _ => ⟨"Job not found", rfl⟩⟩,
      fun jobs' job' hok => absurd hok (by simp)⟩
  | some job =>
    cases hreq : job.speaker_required with
    | false =>
      rw [submitSpeakers_not_required jobs jid p job hf hreq]
      exact ⟨⟨fun _ => Or.inr ⟨job, rfl, Or.inl hreq⟩,
          fun _ => ⟨"Speaker input not required for this job", rfl⟩⟩,
        fun jobs' job' hok => absurd hok (by simp)⟩
    | true =>
      cases hfut : job.speaker_future with
      | none =>
        rw [submitSpeakers_no_future jobs jid p job hf hreq hfut]
        exact ⟨⟨fun _ => Or.inr ⟨job, rfl, Or.inr (Or.inl hfut)⟩,
            fun _ => ⟨"Speaker input not available for this job", rfl⟩⟩,
          fun jobs' job' hok => absurd hok (by simp)⟩
      | some inner =>
        cases inner with
        | some s =>
          rw [submitSpeakers_already_done jobs jid p job s hf hreq hfut]
          exact ⟨⟨fun _ => Or.inr ⟨job, rfl, Or.inr (Or.inr ⟨s, hfut⟩)⟩,
              fun _ => ⟨"Speaker input already submitted", rfl⟩⟩,
            fun jobs' job' hok => absurd hok (by simp)⟩
        | none =>
          rw [submitSpeakers_ok jobs jid p job hf hreq hfut]
          constructor
          · constructor
            · rintro ⟨e, he⟩
              exact absurd he (by simp)
            · rintro (hc | ⟨job2, hj2, hdisj⟩)
              · exact absurd hc (by simp)
              · rw [Option.some_inj] at hj2
                subst hj2
                rcases hdisj with h1 | h1 | ⟨t, h1⟩
                · rw [hreq] at h1
                  exact absurd h1 (by simp)
                · rw [hfut] at h1
                  exact absurd h1 (by simp)
                · rw [hfut] at h1
                  exact absurd h1 (by simp)
          · intro jobs' job' hok
            rw [Except.ok.injEq, Prod.mk.injEq] at hok
            obtain ⟨hjobs', hjob'⟩ := hok
            have hreq' : job'.speaker_required = true := by
              rw [← hjob', fulfillSpeakers, hreq]
            refine ⟨hreq', ?_, ?_, ?_⟩
            · rw [← hjob', fulfillSpeakers]
            · rw [← hjob', fulfillSpeakers]
            · intro q
              have hfind' : jobs'.find? (fun j => j.job_id == jid) =
                  some (fulfillSpeakers p job) := by
                rw [← hjobs']
                exact find?_map_update jobs jid job (fulfillSpeakers p)
                  (fun _ => rfl) hf
              exact ⟨"Speaker input already submitted",
                submitSpeakers_already_done jobs' jid q (fulfillSpeakers p job) p hfind'
                  (by rw [fulfillSpeakers, hreq]) rfl⟩

/-- A job awaiting manual speaker input (witness construction). -/
def pendingSpeakerJob : PipelineJobE :=
  { job_id := "j1", user_id := 1, status := "running", created_at := 0,
    speaker_required := true, speaker_future := some none }

/-- Witness for `claim_C9_submit_speaker_input`: submitting once succeeds,
setting both flags; submitting again for the same job raises. -/
theorem claim_C9_submit_speaker_input_witness :
    (fulfillSpeakers "cfg" pendingSpeakerJob).speaker_required = true ∧
    (fulfillSpeakers "cfg" pendingSpeakerJob).speaker_submitted = true ∧
    (fulfillSpeakers "cfg" pendingSpeakerJob).speaker_future = some (some "cfg") ∧
    ∃ e, submitSpeakers [fulfillSpeakers "cfg" pendingSpeakerJob] "j1" "again" = .error e := by
  have h := (claim_C9_submit_speaker_input [pendingSpeakerJob] "j1" "cfg").2
    [fulfillSpeakers "cfg" pendingSpeakerJob] (fulfillSpeakers "cfg" pendingSpeakerJob)
    (by rfl)
  exact ⟨h.1, h.2.1, h.2.2.1, h.2.2.2 "again"⟩

/-! ### The scheduler as a transition system (C1) -/

/-- The scheduler operations that mutate `PipelineQueue` state. `admitJob`
is the admission transition inside `_run_job` (a queued job's task passes
`_can_start` under the lock and becomes running); `finishJob` is the
`finally` block of `_run_job` together with the completion/failure
assignment; the others map to the public methods of the same names. For
`updateSettings` only the two scheduling-relevant fields are modelled —
the tags/api-keys/asset-selections branches touch no field the admission
bound reads. -/
inductive QAct where
  | updateSettings (uid : Int) (pe : Option Bool) (mc : Option Int)
  | enqueueJob (uid : Int) (jid : String) (manual : Bool)
  | admitJob (jid : String)
  | finishJob (jid : String) (err : Option String)
  | deleteJob (jid : String)
  | reorderQueue (uid : Int) (ids : List String)
  | submitSpk (jid : String) (payload : String)
deriving DecidableEq

def isSettingsUpdate : QAct → Bool
  | .updateSettings .. => true
  | _ => false

/-- `update_settings` on one settings record: `parallel_enabled` replaced
when given; `max_concurrent` clamped to `[1,5]` when given. -/
def applySettingsUpdate (st : UserSettingsE) (pe : Option Bool) (mc : Option Int) :
    UserSettingsE :=
  { st with
      parallel_enabled := match pe with | none => st.parallel_enabled | some b => b
      max_concurrent := match mc with | none => st.max_concurrent | some v => max 1 (min 5 v) }

/-- One scheduler transition. `none` marks a disabled action (an unknown or
wrong-status job id, or a stale uuid); a Python `raise` before any mutation
leaves the state unchanged, so rejected `enqueue`/`submit_speakers` calls
return the input state. -/
def stepAct (s : QState) (a : QAct) : Option QState :=
  match a with
  | .updateSettings uid pe mc =>
      some { s with settings := fun u =>
          if u = uid then some (applySettingsUpdate (settingsFor s uid) pe mc) else s.settings u }
  | .enqueueJob uid jid manual =>
      if s.jobs.any (fun j => j.job_id == jid) then none
      else some (enqueue s uid jid manual).1
  | .admitJob jid =>
      match s.jobs.find? (fun j => j.job_id == jid) with
      | none => none
      | some job =>
          if job.status = "queued" ∧ canStart s job = true then
            some { s with
              jobs := s.jobs.map (fun j => if j.job_id == jid then
                  { j with status := "running", started_at := some s.clock } else j)
              order := fun u => if u = job.user_id then (s.order u).erase jid
                else s.order u
              running := fun u => if u = job.user_id then
                  (if jid ∈ s.running u then s.running u else jid :: s.running u)
                else s.running u
              clock := s.clock + 1 }
          else none
  | .finishJob jid err =>
      match s.jobs.find? (fun j => j.job_id == jid) with
      | none => none
      | some job =>
          if job.status = "running" then
            some { s with
              jobs := s.jobs.map (fun j => if j.job_id == jid then
                  { j with
                      status := match err with | none => "completed" | some _ => "failed"
                      error := match err with | none => j.error | some e => some e
                      finished_at := some s.clock }
                else j)
              running := fun u => if u = job.user_id then (s.running u).erase jid
                else s.running u
              order := fun u => if u = job.user_id then (s.order u).erase jid
                else s.order u
              clock := s.clock + 1 }
          else none
  | .deleteJob jid =>
      if s.jobs.any (fun j => j.job_id == jid) then
        some { s with
          jobs := s.jobs.filter (fun j => !(j.job_id == jid))
          order := fun u => (s.order u).erase jid
          running := fun u => (s.running u).erase jid }
      else some s
  | .reorderQueue uid ids =>
      some { s with order := fun u => if u = uid then
          reorderList (s.jobs.map (fun j => j.job_id)) (s.order u) ids
        else s.order u }
  | .submitSpk jid payload =>
      match submitSpeakers s.jobs jid payload with
      | .error _ => some s
      | .ok (jobs', _) => some { s with jobs := jobs' }

/-- Run a sequence of scheduler transitions. -/
def runTrace (s : QState) : List QAct → Option QState
  | [] => some s
  | a :: acts =>
      match stepAct s a with
      | none => none
      | some s' => runTrace s' acts

/-- A fresh `PipelineQueue` over an empty store with the given constructor
flags (`__init__` clamps `max_concurrent` to `[1,5]`). -/
def initQState (pe : Bool) (mc : Int) : QState :=
  ⟨[], fun _ => [], fun _ => [], fun _ => none, pe, max 1 (min 5 mc), 0⟩

/-- The number of user `uid`'s jobs whose status is `running`. -/
def runningCount (s : QState) (uid : Int) : Nat :=
  (s.jobs.filter (fun j => j.status == "running" && j.user_id == uid)).length

/-- The per-user concurrency capacity: `max_concurrent` when
`parallel_enabled`, else 1. -/
def effectiveCap (s : QState) (uid : Int) : Int :=
  if (settingsFor s uid).parallel_enabled then (settingsFor s uid).max_concurrent else 1

/-- Some job of `jobs` with this id, owner and status `running`. -/
def hasRunningJob (jobs : List PipelineJobE) (u : Int) (x : String) : Prop :=
  ∃ j ∈ jobs, j.job_id = x ∧ j.user_id = u ∧ j.status = "running"

/-- The scheduler's registry invariant: job ids are unique, and each
`_running_by_user` set holds exactly the ids of that user's
`running`-status jobs, without duplicates. -/
def QSInv (s : QState) : Prop :=
  (s.jobs.map (fun j => j.job_id)).Nodup ∧
  ∀ u : Int, (s.running u).Nodup ∧
    ∀ x : String, x ∈ s.running u ↔ hasRunningJob s.jobs u x

theorem nodupIds_unique {jobs : List PipelineJobE}
    (hnd : (jobs.map (fun j => j.job_id)).Nodup) {j1 j2 : PipelineJobE}
    (h1 : j1 ∈ jobs) (h2 : j2 ∈ jobs) (hid : j1.job_id = j2.job_id) : j1 = j2 := by
  induction jobs with
  | nil => exact absurd h1 (List.not_mem_nil j1)
  | cons a l ih =>
    rw [List.map_cons, List.nodup_cons] at hnd
    rcases List.mem_cons.mp h1 with ha1 | ha1 <;> rcases List.mem_cons.mp h2 with ha2 | ha2
    · rw [ha1, ha2]
    · refine absurd (List.mem_map.mpr ⟨j2, ha2, ?_⟩) hnd.1
      rw [← hid, ← ha1]
    · refine absurd (List.mem_map.mpr ⟨j1, ha1, ?_⟩) hnd.1
      rw [hid, ← ha2]
    · exact ih hnd.2 ha1 ha2

theorem mem_insertRun (r : List String) (jid x : String) :
    (x ∈ if jid ∈ r then r else jid :: r) ↔ x = jid ∨ x ∈ r := by
  by_cases h : jid ∈ r
  · rw [if_pos h]
    constructor
    · exact fun hx => Or.inr hx
    · rintro (rfl | hx)
      · exact h
      · exact hx
  · rw [if_neg h]
    exact List.mem_cons

theorem nodup_insertRun (r : List String) (jid : String) (h : r.Nodup) :
    (if jid ∈ r then r else jid :: r).Nodup := by
  by_cases hm : jid ∈ r
  · rwa [if_pos hm]
  · rw [if_neg hm]
    exact List.nodup_cons.mpr ⟨hm, h⟩

theorem length_insertRun (r : List String) (jid : String) :
    (if jid ∈ r then r else jid :: r).length ≤ r.length + 1 := by
  by_cases hm : jid ∈ r
  · rw [if_pos hm]
    omega
  · rw [if_neg hm, List.length_cons]

/-- Under the registry invariant, the number of `running`-status jobs of a
user equals the size of that user's `_running_by_user` set. -/
theorem runningCount_eq_length (s : QState) (hinv : QSInv s) (u : Int) :
    runningCount s u = (s.running u).length := by
  obtain ⟨hnd, hrun⟩ := hinv
  obtain ⟨hrnd, hmem⟩ := hrun u
  set M := (s.jobs.filter (fun j => j.status == "running" && j.user_id == u)).map
    (fun j => j.job_id) with hM
  have hMnd : M.Nodup := by
    refine List.Nodup.sublist ?_ hnd
    exact List.Sublist.map (fun j => j.job_id) (List.filter_sublist s.jobs)
  have hMmem : ∀ x, x ∈ M ↔ hasRunningJob s.jobs u x := by
    intro x
    rw [hM, List.mem_map]
    constructor
    · rintro ⟨j, hj, rfl⟩
      rw [List.mem_filter] at hj
      refine ⟨j, hj.1, rfl, ?_, ?_⟩
      · have := hj.2
        simp only [Bool.and_eq_true, beq_iff_eq] at this
        exact this.2
      · have := hj.2
        simp only [Bool.and_eq_true, beq_iff_eq] at this
        exact this.1
    · rintro ⟨j, hj, hid, huser, hstat⟩
      refine ⟨j, List.mem_filter.mpr ⟨hj, ?_⟩, hid⟩
      simp only [Bool.and_eq_true, beq_iff_eq]
      exact ⟨hstat, huser⟩
  have hfs : (s.running u).toFinset = M.toFinset := by
    ext x
    rw [List.mem_toFinset, List.mem_toFinset, hmem x, hMmem x]
  have h1 : (s.running u).toFinset.card = (s.running u).length :=
    List.toFinset_card_of_nodup hrnd
  have h2 : M.toFinset.card = M.length := List.toFinset_card_of_nodup hMnd
  have h3 : M.length = runningCount s u := by
    rw [hM, List.length_map, runningCount]
  rw [← h3, ← h2, ← hfs, h1]

/-- All users satisfy the concurrency bound on the running registry. -/
def boundAll (s : QState) : Prop :=
  ∀ u : Int, ((s.running u).length : Int) ≤ effectiveCap s u

theorem find?_job_facts {jobs : List PipelineJobE} {jid : String} {job : PipelineJobE}
    (h : jobs.find? (fun j => j.job_id == jid) = some job) :
    job ∈ jobs ∧ job.job_id = jid := by
  refine ⟨List.mem_of_find?_eq_some h, ?_⟩
  have := List.find?_some h
  simpa using this

theorem hasRunningJob_map_iff (jobs : List PipelineJobE) (jid0 : String)
    (g : PipelineJobE → PipelineJobE)
    (hid : ∀ j, (g j).job_id = j.job_id) (huser : ∀ j, (g j).user_id = j.user_id)
    (hnd : (jobs.map (fun j => j.job_id)).Nodup) (job : PipelineJobE)
    (hfind : jobs.find? (fun j => j.job_id == jid0) = some job) (u : Int) (x : String) :
    hasRunningJob (jobs.map (fun j => if j.job_id == jid0 then g j else j)) u x ↔
      (x ≠ jid0 ∧ hasRunningJob jobs u x) ∨
      (x = jid0 ∧ job.user_id = u ∧ (g job).status = "running") := by
  obtain ⟨hjmem, hjid⟩ := find?_job_facts hfind
  constructor
  · rintro ⟨j', hj', hx, hu, hst⟩
    obtain ⟨j, hj, hfj⟩ := List.mem_map.mp hj'
    by_cases hj0 : (j.job_id == jid0) = true
    · rw [if_pos hj0] at hfj
      have hjeq : j = job := nodupIds_unique hnd hj hjmem (by rw [hjid]; exact beq_iff_eq.mp hj0)
      subst hjeq
      refine Or.inr ⟨?_, ?_, ?_⟩
      · rw [← hx, ← hfj, hid, beq_iff_eq.mp hj0]
      · rw [← hu, ← hfj, huser]
      · rw [hfj, hst]
    · rw [if_neg hj0] at hfj
      subst hfj
      refine Or.inl ⟨?_, j, hj, hx, hu, hst⟩
      rw [← hx]
      exact fun hc => hj0 (beq_iff_eq.mpr hc)
  · rintro (⟨hne, j, hj, hx, hu, hst⟩ | ⟨rfl, hu, hst⟩)
    · refine ⟨j, List.mem_map.mpr ⟨j, hj, ?_⟩, hx, hu, hst⟩
      rw [if_neg (fun hc => hne (hx ▸ beq_iff_eq.mp hc))]
    · refine ⟨g job, List.mem_map.mpr ⟨job, hjmem, ?_⟩, ?_, ?_, hst⟩
      · rw [if_pos (beq_iff_eq.mpr hjid)]
      · rw [hid, hjid]
      · rw [huser, hu]

theorem hasRunningJob_append_nonrunning (jobs : List PipelineJobE) (nj : PipelineJobE)
    (h : nj.status ≠ "running") (u : Int) (x : String) :
    hasRunningJob (jobs ++ [nj]) u x ↔ hasRunningJob jobs u x := by
  constructor
  · rintro ⟨j, hj, hx, hu, hst⟩
    rcases List.mem_append.mp hj with hj | hj
    · exact ⟨j, hj, hx, hu, hst⟩
    · rw [List.mem_singleton.mp hj] at hst
      exact absurd hst h
  · rintro ⟨j, hj, hx, hu, hst⟩
    exact ⟨j, List.mem_append_left _ hj, hx, hu, hst⟩

theorem hasRunningJob_filter_ne (jobs : List PipelineJobE) (jid : String) (u : Int)
    (x : String) :
    hasRunningJob (jobs.filter (fun j => !(j.job_id == jid))) u x ↔
      x ≠ jid ∧ hasRunningJob jobs u x := by
  constructor
  · rintro ⟨j, hj, hx, hu, hst⟩
    rw [List.mem_filter] at hj
    refine ⟨?_, j, hj.1, hx, hu, hst⟩
    intro hc
    have h2 := hj.2
    rw [hx, hc] at h2
    simp at h2
  · rintro ⟨hne, j, hj, hx, hu, hst⟩
    refine ⟨j, List.mem_filter.mpr ⟨hj, ?_⟩, hx, hu, hst⟩
    rw [Bool.not_eq_eq_eq_not, Bool.not_true, beq_eq_false_iff_ne]
    exact fun hc => hne (hx ▸ hc)

theorem canStart_slots_pos {s : QState} {job : PipelineJobE}
    (h : canStart s job = true) : 0 < slotsAvailable s job.user_id := by
  by_contra hle
  push_neg at hle
  simp only [canStart] at h
  rw [if_pos hle] at h
  exact absurd h (by simp)

theorem pres_enqueue {s s' : QState} {uid : Int} {jid : String} {manual : Bool}
    (hstep : stepAct s (.enqueueJob uid jid manual) = some s')
    (hinv : QSInv s) (hb : boundAll s) : QSInv s' ∧ boundAll s' := by
  rw [stepAct] at hstep
  by_cases hany : (s.jobs.any (fun j => j.job_id == jid)) = true
  · rw [if_pos hany] at hstep
    exact absurd hstep (by simp)
  · rw [if_neg hany] at hstep
    rw [Option.some_inj] at hstep
    subst hstep
    by_cases hc : countQueuedRunning s uid ≥ MAX_QUEUED
    · rw [enqueue, if_pos hc]
      exact ⟨hinv, hb⟩
    · rw [enqueue, if_neg hc]
      have hins : insertJob s.jobs (newJob s uid jid manual) =
          s.jobs ++ [newJob s uid jid manual] := by
        rw [insertJob, if_neg (by exact hany)]
      obtain ⟨hnd, hrun⟩ := hinv
      refine ⟨⟨?_, ?_⟩, ?_⟩
      · show ((insertJob s.jobs (newJob s uid jid manual)).map (fun j => j.job_id)).Nodup
        rw [hins, List.map_append]
        rw [List.nodup_append]
        refine ⟨hnd, List.nodup_singleton _, ?_⟩
        intro x hx hx2
        rw [List.map_singleton, List.mem_singleton] at hx2
        subst hx2
        obtain ⟨j, hj, hjx⟩ := List.mem_map.mp hx
        apply hany
        rw [List.any_eq_true]
        exact ⟨j, hj, beq_iff_eq.mpr hjx⟩
      · intro u
        refine ⟨(hrun u).1, ?_⟩
        intro x
        show x ∈ s.running u ↔
          hasRunningJob (insertJob s.jobs (newJob s uid jid manual)) u x
        rw [hins, hasRunningJob_append_nonrunning s.jobs (newJob s uid jid manual)
          (fun h => absurd (show "queued" = "running" from h) (by decide)) u x]
        exact (hrun u).2 x
      · intro u
        exact hb u

theorem pres_admit {s s' : QState} {jid : String}
    (hstep : stepAct s (.admitJob jid) = some s')
    (hinv : QSInv s) (hb : boundAll s) : QSInv s' ∧ boundAll s' := by
  cases hfind : s.jobs.find? (fun j => j.job_id == jid) with
  | none =>
    simp only [stepAct, hfind] at hstep
    exact absurd hstep (by simp)
  | some job =>
    simp only [stepAct, hfind] at hstep
    by_cases hcond : job.status = "queued" ∧ canStart s job = true
    · rw [if_pos hcond, Option.some_inj] at hstep
      subst hstep
      obtain ⟨hq, hcs⟩ := hcond
      obtain ⟨hnd, hrun⟩ := hinv
      obtain ⟨hjmem, hjid⟩ := find?_job_facts hfind
      have hidsg : (s.jobs.map (fun j => if j.job_id == jid then
          { j with status := "running", started_at := some s.clock } else j)).map
            (fun j => j.job_id) = s.jobs.map (fun j => j.job_id) := by
        rw [List.map_map]
        refine List.map_congr_left (fun j _ => ?_)
        by_cases h : (j.job_id == jid) = true
        · rw [Function.comp_apply, if_pos h]
        · rw [Function.comp_apply, if_neg h]
      have hnotrun : ∀ u, ¬ hasRunningJob s.jobs u jid := by
        rintro u ⟨j, hj, hx, hu, hst⟩
        have : j = job := nodupIds_unique hnd hj hjmem (by rw [hx, hjid])
        rw [this, hq] at hst
        exact absurd hst (by decide)
      have hmapiff := hasRunningJob_map_iff s.jobs jid
        (g := fun j => { j with status := "running", started_at := some s.clock })
        (fun _ => rfl) (fun _ => rfl) hnd job hfind
      refine ⟨⟨?_, ?_⟩, ?_⟩
      · dsimp only
        rw [hidsg]
        exact hnd
      · intro u
        dsimp only
        by_cases hu : u = job.user_id
        · rw [if_pos hu]
          refine ⟨nodup_insertRun _ _ (hrun u).1, ?_⟩
          intro x
          rw [mem_insertRun, hmapiff u x]
          constructor
          · rintro (rfl | hx)
            · exact Or.inr ⟨rfl, hu.symm, rfl⟩
            · have hrx := ((hrun u).2 x).mp hx
              by_cases hxj : x = jid
              · exact absurd (hxj ▸ hrx) (hnotrun u)
              · exact Or.inl ⟨hxj, hrx⟩
          · rintro (⟨hne, hrx⟩ | ⟨rfl, _, _⟩)
            · exact Or.inr (((hrun u).2 x).mpr hrx)
            · exact Or.inl rfl
        · rw [if_neg hu]
          refine ⟨(hrun u).1, ?_⟩
          intro x
          rw [hmapiff u x]
          constructor
          · intro hx
            have hrx := ((hrun u).2 x).mp hx
            by_cases hxj : x = jid
            · exact absurd (hxj ▸ hrx) (hnotrun u)
            · exact Or.inl ⟨hxj, hrx⟩
          · rintro (⟨hne, hrx⟩ | ⟨rfl, huser, _⟩)
            · exact ((hrun u).2 x).mpr hrx
            · exact absurd huser.symm hu
      · intro u
        show ((if u = job.user_id then (if jid ∈ s.running u then s.running u
            else jid :: s.running u) else s.running u).length : Int) ≤
          if (settingsFor s u).parallel_enabled = true then
            (settingsFor s u).max_concurrent else 1
        by_cases hu : u = job.user_id
        · rw [if_pos hu]
          have hslots := canStart_slots_pos hcs
          have hlen := length_insertRun (s.running u) jid
          rw [slotsAvailable, ← hu] at hslots
          by_cases hpar : (settingsFor s u).parallel_enabled = true
          · rw [if_pos hpar]
            rw [if_pos hpar] at hslots
            omega
          · rw [if_neg hpar]
            rw [if_neg hpar] at hslots
            by_cases hemp : (s.running u).isEmpty = true
            · rw [if_pos hemp] at hslots
              have : (s.running u).length = 0 := by
                rwa [List.isEmpty_iff_length_eq_zero] at hemp
              omega
            · rw [if_neg hemp] at hslots
              omega
        · rw [if_neg hu]
          exact hb u
    · rw [if_neg hcond] at hstep
      exact absurd hstep (by simp)

theorem pres_finish_core (s : QState) (job : PipelineJobE) (jid : String)
    (st : String) (er : PipelineJobE → Option String) (hstne : st ≠ "running")
    (hfind : s.jobs.find? (fun j => j.job_id == jid) = some job)
    (hinv : QSInv s) (hb : boundAll s) :
    QSInv { s with
        jobs := s.jobs.map (fun j => if j.job_id == jid then
            { j with status := st, error := er j, finished_at := some s.clock } else j)
        running := fun u => if u = job.user_id then (s.running u).erase jid
          else s.running u
        order := fun u => if u = job.user_id then (s.order u).erase jid
          else s.order u
        clock := s.clock + 1 } ∧
    boundAll { s with
        jobs := s.jobs.map (fun j => if j.job_id == jid then
            { j with status := st, error := er j, finished_at := some s.clock } else j)
        running := fun u => if u = job.user_id then (s.running u).erase jid
          else s.running u
        order := fun u => if u = job.user_id then (s.order u).erase jid
          else s.order u
        clock := s.clock + 1 } := by
  obtain ⟨hnd, hrun⟩ := hinv
  obtain ⟨hjmem, hjid⟩ := find?_job_facts hfind
  have hidsg : (s.jobs.map (fun j => if j.job_id == jid then
      { j with status := st, error := er j, finished_at := some s.clock } else j)).map
        (fun j => j.job_id) = s.jobs.map (fun j => j.job_id) := by
    rw [List.map_map]
    refine List.map_congr_left (fun j _ => ?_)
    by_cases h : (j.job_id == jid) = true
    · rw [Function.comp_apply, if_pos h]
    · rw [Function.comp_apply, if_neg h]
  have hmapiff := hasRunningJob_map_iff s.jobs jid
    (g := fun j => { j with status := st, error := er j, finished_at := some s.clock })
    (fun _ => rfl) (fun _ => rfl) hnd job hfind
  refine ⟨⟨?_, ?_⟩, ?_⟩
  · dsimp only
    rw [hidsg]
    exact hnd
  · intro u
    dsimp only
    by_cases hu : u = job.user_id
    · rw [if_pos hu]
      refine ⟨List.Nodup.erase jid (hrun u).1, ?_⟩
      intro x
      rw [List.Nodup.mem_erase_iff (hrun u).1, hmapiff u x]
      constructor
      · rintro ⟨hne, hx⟩
        exact Or.inl ⟨hne, ((hrun u).2 x).mp hx⟩
      · rintro (⟨hne, hrx⟩ | ⟨rfl, _, hst⟩)
        · exact ⟨hne, ((hrun u).2 x).mpr hrx⟩
        · exact absurd hst hstne
    · rw [if_neg hu]
      refine ⟨(hrun u).1, ?_⟩
      intro x
      rw [hmapiff u x]
      constructor
      · intro hx
        have hrx := ((hrun u).2 x).mp hx
        by_cases hxj : x = jid
        · subst hxj
          obtain ⟨j, hj, hx2, hu2, _⟩ := hrx
          have : j = job := nodupIds_unique hnd hj hjmem (by rw [hx2, hjid])
          rw [this] at hu2
          exact absurd hu2.symm hu
        · exact Or.inl ⟨hxj, hrx⟩
      · rintro (⟨hne, hrx⟩ | ⟨rfl, _, hst⟩)
        · exact ((hrun u).2 x).mpr hrx
        · exact absurd hst hstne
  · intro u
    show (((if u = job.user_id then (s.running u).erase jid
        else s.running u)).length : Int) ≤
      if (settingsFor s u).parallel_enabled = true then
        (settingsFor s u).max_concurrent else 1
    by_cases hu : u = job.user_id
    · rw [if_pos hu]
      have h1 : ((s.running u).erase jid).length ≤ (s.running u).length :=
        List.Sublist.length_le (List.erase_sublist jid (s.running u))
      have h2 := hb u
      rw [effectiveCap] at h2
      omega
    · rw [if_neg hu]
      exact hb u

theorem pres_finish {s s' : QState} {jid : String} {err : Option String}
    (hstep : stepAct s (.finishJob jid err) = some s')
    (hinv : QSInv s) (hb : boundAll s) : QSInv s' ∧ boundAll s' := by
  cases hfind : s.jobs.find? (fun j => j.job_id == jid) with
  | none =>
    simp only [stepAct, hfind] at hstep
    exact absurd hstep (by simp)
  | some job =>
    simp only [stepAct, hfind] at hstep
    by_cases hcond : job.status = "running"
    · rw [if_pos hcond, Option.some_inj] at hstep
      subst hstep
      cases err with
      | none =>
        exact pres_finish_core s job jid "completed" (fun j => j.error)
          (by decide) hfind ⟨hinv.1, hinv.2⟩ hb
      | some e =>
        exact pres_finish_core s job jid "failed" (fun _ => some e)
          (by decide) hfind ⟨hinv.1, hinv.2⟩ hb
    · rw [if_neg hcond] at hstep
      exact absurd hstep (by simp)

theorem pres_delete {s s' : QState} {jid : String}
    (hstep : stepAct s (.deleteJob jid) = some s')
    (hinv : QSInv s) (hb : boundAll s) : QSInv s' ∧ boundAll s' := by
  rw [stepAct] at hstep
  by_cases hany : (s.jobs.any (fun j => j.job_id == jid)) = true
  · rw [if_pos hany, Option.some_inj] at hstep
    subst hstep
    obtain ⟨hnd, hrun⟩ := hinv
    refine ⟨⟨?_, ?_⟩, ?_⟩
    · dsimp only
      refine List.Nodup.sublist ?_ hnd
      exact List.Sublist.map (fun j => j.job_id) (List.filter_sublist s.jobs)
    · intro u
      dsimp only
      refine ⟨List.Nodup.erase jid (hrun u).1, ?_⟩
      intro x
      rw [List.Nodup.mem_erase_iff (hrun u).1, hasRunningJob_filter_ne]
      exact and_congr_right (fun _ => (hrun u).2 x)
    · intro u
      show (((s.running u).erase jid).length : Int) ≤
        if (settingsFor s u).parallel_enabled = true then
          (settingsFor s u).max_concurrent else 1
      have h1 : ((s.running u).erase jid).length ≤ (s.running u).length :=
        List.Sublist.length_le (List.erase_sublist jid (s.running u))
      have h2 := hb u
      rw [effectiveCap] at h2
      omega
  · rw [if_neg hany, Option.some_inj] at hstep
    subst hstep
    exact ⟨⟨hinv.1, hinv.2⟩, hb⟩

theorem pres_reorder {s s' : QState} {uid : Int} {ids : List String}
    (hstep : stepAct s (.reorderQueue uid ids) = some s')
    (hinv : QSInv s) (hb : boundAll s) : QSInv s' ∧ boundAll s' := by
  rw [stepAct, Option.some_inj] at hstep
  subst hstep
  exact ⟨⟨hinv.1, hinv.2⟩, hb⟩

theorem pres_submitSpk {s s' : QState} {jid payload : String}
    (hstep : stepAct s (.submitSpk jid payload) = some s')
    (hinv : QSInv s) (hb : boundAll s) : QSInv s' ∧ boundAll s' := by
  rw [stepAct] at hstep
  cases hss : submitSpeakers s.jobs jid payload with
  | error e =>
    rw [hss, Option.some_inj] at hstep
    subst hstep
    exact ⟨⟨hinv.1, hinv.2⟩, hb⟩
  | ok pair =>
    rw [hss] at hstep
    cases hfind : s.jobs.find? (fun j => j.job_id == jid) with
    | none =>
      rw [submitSpeakers_not_found s.jobs jid payload hfind] at hss
      exact absurd hss (by simp)
    | some job =>
      cases hreq : job.speaker_required with
      | false =>
        rw [submitSpeakers_not_required s.jobs jid payload job hfind hreq] at hss
        exact absurd hss (by simp)
      | true =>
        cases hfut : job.speaker_future with
        | none =>
          rw [submitSpeakers_no_future s.jobs jid payload job hfind hreq hfut] at hss
          exact absurd hss (by simp)
        | some inner =>
          cases inner with
          | some t =>
            rw [submitSpeakers_already_done s.jobs jid payload job t hfind hreq hfut] at hss
            exact absurd hss (by simp)
          | none =>
            rw [submitSpeakers_ok s.jobs jid payload job hfind hreq hfut,
              Except.ok.injEq] at hss
            rw [← hss, Option.some_inj] at hstep
            subst hstep
            obtain ⟨hnd, hrun⟩ := hinv
            have hmapiff := hasRunningJob_map_iff s.jobs jid
              (g := fulfillSpeakers payload) (fun _ => rfl) (fun _ => rfl) hnd job hfind
            refine ⟨⟨?_, ?_⟩, ?_⟩
            · dsimp only
              have hidsg : ((s.jobs.map (fun j => if j.job_id == jid then
                  fulfillSpeakers payload j else j)).map (fun j => j.job_id)) =
                    s.jobs.map (fun j => j.job_id) := by
                rw [List.map_map]
                refine List.map_congr_left (fun j _ => ?_)
                by_cases h : (j.job_id == jid) = true
                · rw [Function.comp_apply, if_pos h]
                  rfl
                · rw [Function.comp_apply, if_neg h]
              rw [hidsg]
              exact hnd
            · intro u
              dsimp only
              refine ⟨(hrun u).1, ?_⟩
              intro x
              rw [hmapiff u x]
              obtain ⟨hjmem, hjid⟩ := find?_job_facts hfind
              constructor
              · intro hx
                have hrx := ((hrun u).2 x).mp hx
                by_cases hxj : x = jid
                · subst hxj
                  obtain ⟨j, hj, hx2, hu2, hst2⟩ := hrx
                  have hje : j = job := nodupIds_unique hnd hj hjmem (by rw [hx2, hjid])
                  subst hje
                  exact Or.inr ⟨rfl, hu2, hst2⟩
                · exact Or.inl ⟨hxj, hrx⟩
              · rintro (⟨hne, hrx⟩ | ⟨hxe, hu2, hst2⟩)
                · exact ((hrun u).2 x).mpr hrx
                · subst hxe
                  exact ((hrun u).2 x).mpr ⟨job, hjmem, hjid, hu2, hst2⟩
            · intro u
              exact hb u

theorem runTrace_preserves (acts : List QAct) (s s' : QState)
    (hrun : runTrace s acts = some s')
    (hns : ∀ a ∈ acts, isSettingsUpdate a = false)
    (hinv : QSInv s) (hb : boundAll s) : QSInv s' ∧ boundAll s' := by
  induction acts generalizing s with
  | nil =>
    rw [runTrace, Option.some_inj] at hrun
    subst hrun
    exact ⟨hinv, hb⟩
  | cons a rest ih =>
    rw [runTrace] at hrun
    cases hstep : stepAct s a with
    | none =>
      rw [hstep] at hrun
      exact absurd hrun (by simp)
    | some s1 =>
      rw [hstep] at hrun
      have hstep1 : QSInv s1 ∧ boundAll s1 := by
        cases a with
        | updateSettings uid pe mc =>
          have := hns (.updateSettings uid pe mc) (List.mem_cons_self _ _)
          simp [isSettingsUpdate] at this
        | enqueueJob uid jid manual => exact pres_enqueue hstep hinv hb
        | admitJob jid => exact pres_admit hstep hinv hb
        | finishJob jid err => exact pres_finish hstep hinv hb
        | deleteJob jid => exact pres_delete hstep hinv hb
        | reorderQueue uid ids => exact pres_reorder hstep hinv hb
        | submitSpk jid payload => exact pres_submitSpk hstep hinv hb
      exact ih s1 hrun (fun a2 ha2 => hns a2 (List.mem_cons_of_mem a ha2))
        hstep1.1 hstep1.2

theorem initQState_inv (pe : Bool) (mc : Int) : QSInv (initQState pe mc) := by
  refine ⟨by simp [initQState], ?_⟩
  intro u
  refine ⟨List.nodup_nil, ?_⟩
  intro x
  constructor
  · intro hx
    exact absurd hx (List.not_mem_nil x)
  · rintro ⟨j, hj, _⟩
    exact absurd hj (List.not_mem_nil j)

theorem initQState_bound (pe : Bool) (mc : Int) : boundAll (initQState pe mc) := by
  intro u
  show ((0 : Nat) : Int) ≤ effectiveCap (initQState pe mc) u
  rw [effectiveCap]
  by_cases hpar : (settingsFor (initQState pe mc) u).parallel_enabled = true
  · rw [if_pos hpar]
    show (0 : Int) ≤ max 1 (min 5 mc)
    have : (1 : Int) ≤ max 1 (min 5 mc) := le_max_left 1 _
    omega
  · rw [if_neg hpar]
    omega

/-- Option helper: a `some` option equals `some` of its `getD`. -/
theorem option_eq_some_getD {α : Type} (o : Option α) (d : α)
    (h : o.isSome = true) : o = some (o.getD d) := by
  cases o with
  | none => exact absurd h (by simp)
  | some v => rfl

/-- The trace exhibiting C1's failure: user 1 enables parallel mode with
two slots at construction, enqueues and admits two jobs, then disables
parallel mode while both are still running. -/
def badActs : List QAct :=
  [.enqueueJob 1 "a" false, .enqueueJob 1 "b" false, .admitJob "a", .admitJob "b",
    .updateSettings 1 (some false) none]

/-- The state reached by `badActs`. -/
def cexState : QState := (runTrace (initQState true 2) badActs).getD (initQState true 2)

/-- C1 counterexample: the state after `badActs` is reachable and has two
`running` jobs for user 1 while user 1's effective capacity — 1, because
`parallel_enabled` is now false — is exceeded: the claimed "at every
instant" bound fails after a settings update that lowers capacity below
the current running count. -/
theorem claim_C1_counterexample :
    (runTrace (initQState true 2) badActs).isSome = true ∧
    runningCount cexState 1 = 2 ∧
    effectiveCap cexState 1 = 1 ∧
    ¬ ((runningCount cexState 1 : Int) ≤ effectiveCap cexState 1) := by
  refine ⟨by decide, by decide, by decide, by decide⟩

/-- C1 amended: along every trace of scheduler transitions that contains no
settings update, every user's number of `running`-status jobs never exceeds
the effective capacity (`max_concurrent` when `parallel_enabled`, else 1);
in particular admission (`_can_start` inside `_run_job`) preserves the
bound. A settings update that lowers the capacity below the current running
count is the only transition that can violate it (`claim_C1_counterexample`). -/
theorem claim_C1_admission_bound (pe : Bool) (mc : Int) (acts : List QAct) (s' : QState)
    (hrun : runTrace (initQState pe mc) acts = some s')
    (hns : ∀ a ∈ acts, isSettingsUpdate a = false) (u : Int) :
    (runningCount s' u : Int) ≤ effectiveCap s' u := by
  obtain ⟨hinv, hb⟩ := runTrace_preserves acts (initQState pe mc) s' hrun hns
    (initQState_inv pe mc) (initQState_bound pe mc)
  rw [runningCount_eq_length s' hinv u]
  exact hb u

/-- The two-action trace used to witness `claim_C1_admission_bound`. -/
def wActs : List QAct := [.enqueueJob 1 "a" false, .admitJob "a"]

/-- The state reached by `wActs`. -/
def wState : QState := (runTrace (initQState false 1) wActs).getD (initQState false 1)

/-- Witness for `claim_C1_admission_bound` on a concrete two-step trace. -/
theorem claim_C1_admission_bound_witness :
    (runningCount wState 1 : Int) ≤ effectiveCap wState 1 :=
  claim_C1_admission_bound false 1 wActs wState
    (option_eq_some_getD (runTrace (initQState false 1) wActs) (initQState false 1)
      (by decide))
    (by decide) 1
